import Mathlib

/-!
Shallow embedding of the BanditUCB Redis module (src/banditucb.c).

The module stores, per key, a `BanditUCBObject` holding the number of arms
(`narms`, a C `uint32_t`), the UCB scaling constant `c` (a C `double`),
and per-arm pull counts (`uint64_t`) and running means (`double`).

Modelling conventions:
* C `uint32_t` / `uint64_t` values are `Nat` with explicit reduction
  `% 2^32` / `% 2^64` at every point where the C code converts or wraps.
* C `long long` command arguments (parsed by `RedisModule_StringToLongLong`)
  are `Int`; conversion to the unsigned field types takes the value modulo
  `2^32` / `2^64`, matching two's-complement conversion in C.
* C `double` state fields are real numbers `ℝ`; the IEEE special values that
  arise in `computeBounds` (from `log`, division by zero and `sqrt`) are
  modelled by the type `DReal` (a real, `+inf`, `-inf` or `NaN`) with the
  IEEE-754 propagation rules for the operations the code uses, exact
  (unrounded) real arithmetic on finite values.
* A key is `Option BanditUCBObject`: `none` is an empty/absent key
  (`REDISMODULE_KEYTYPE_EMPTY`), `some o` a key holding the BanditUCB type.
  The wrong-type branch (key holding another Redis type) is host dispatch
  outside the data type and is not modelled.
* Each command handler takes the parsed argument values; parse-failure
  branches of `RedisModule_StringToLongLong/StringToDouble` are not modelled
  (all claims concern post-parse behaviour).
* A NULL-pointer dereference (which `BANDITUCB.PICK` performs on an empty
  key, having no empty-key check) is modelled by the distinguished reply
  `Reply.crash`, and the potentially unbounded `rand()` loop in `randInt`
  by an explicit list of draws, with `Reply.hang` when the list is exhausted.
-/

namespace BanditUCB

/-- `#define MAX_ARMS 64` -/
def MAX_ARMS : Nat := 64

/-- Modulus of the C `uint32_t` type (`ARM`). -/
def U32 : Nat := 2 ^ 32

/-- Modulus of the C `uint64_t` type (`COUNT`). -/
def U64 : Nat := 2 ^ 64

/-- Convert a C `long long` value to `uint32_t` (two's-complement reduction). -/
def toU32 (n : Int) : Nat := (n % (U32 : Int)).toNat

/-- Convert a C `long long` value to `uint64_t` (two's-complement reduction). -/
def toU64 (n : Int) : Nat := (n % (U64 : Int)).toNat

/-- Convert a `uint64_t` value to C `long long` (two's-complement
reinterpretation), as done implicitly by `RedisModule_ReplyWithLongLong` and
by the `"l"` format of `RedisModule_EmitAOF`. -/
def toI64 (n : Nat) : Int := if n < 2 ^ 63 then (n : Int) else (n : Int) - (U64 : Int)

/-- A C `double` value: a finite real (exact, unrounded), `+inf`, `-inf`
or `NaN`. -/
inductive DReal where
  | fin : ℝ → DReal
  | pinf : DReal
  | ninf : DReal
  | nan : DReal

namespace DReal

/-- IEEE addition on `DReal` (exact on finite values). -/
noncomputable def dAdd : DReal → DReal → DReal
  | fin a, fin b => fin (a + b)
  | fin _, pinf => pinf
  | fin _, ninf => ninf
  | pinf, fin _ => pinf
  | ninf, fin _ => ninf
  | pinf, pinf => pinf
  | ninf, ninf => ninf
  | pinf, ninf => nan
  | ninf, pinf => nan
  | nan, _ => nan
  | _, nan => nan

/-- IEEE multiplication on `DReal` (exact on finite values);
`±inf * 0 = NaN`. -/
noncomputable def dMul : DReal → DReal → DReal
  | fin a, fin b => fin (a * b)
  | fin a, pinf => if 0 < a then pinf else if a < 0 then ninf else nan
  | fin a, ninf => if 0 < a then ninf else if a < 0 then pinf else nan
  | pinf, fin b => if 0 < b then pinf else if b < 0 then ninf else nan
  | ninf, fin b => if 0 < b then ninf else if b < 0 then pinf else nan
  | pinf, pinf => pinf
  | ninf, ninf => pinf
  | pinf, ninf => ninf
  | ninf, pinf => ninf
  | nan, _ => nan
  | _, nan => nan

/-- IEEE division on `DReal` (exact on finite values). Division of a nonzero
finite value by (positive) zero gives a signed infinity; `0/0 = NaN`.
The zero divisors arising in the code come from converting the unsigned
integer `0`, i.e. are `+0`. -/
noncomputable def dDiv : DReal → DReal → DReal
  | fin a, fin b =>
      if b = 0 then (if 0 < a then pinf else if a < 0 then ninf else nan)
      else fin (a / b)
  | fin _, pinf => fin 0
  | fin _, ninf => fin 0
  | pinf, fin b => if b < 0 then ninf else pinf
  | ninf, fin b => if b < 0 then pinf else ninf
  | pinf, pinf => nan
  | pinf, ninf => nan
  | ninf, pinf => nan
  | ninf, ninf => nan
  | nan, _ => nan
  | _, nan => nan

/-- C `sqrt`: `NaN` on negative inputs and `-inf`, `+inf` on `+inf`. -/
noncomputable def dSqrt : DReal → DReal
  | fin a => if 0 ≤ a then fin (Real.sqrt a) else nan
  | pinf => pinf
  | ninf => nan
  | nan => nan

/-- C `log`: `log(+0) = -inf`, `NaN` on negative inputs, `+inf` at `+inf`. -/
noncomputable def dLog : DReal → DReal
  | fin a => if 0 < a then fin (Real.log a) else if a = 0 then ninf else nan
  | pinf => pinf
  | ninf => nan
  | nan => nan

/-- IEEE `>` comparison (any comparison with `NaN` is false). -/
noncomputable def dGtb : DReal → DReal → Bool
  | fin a, fin b => decide (b < a)
  | fin _, pinf => false
  | fin _, ninf => true
  | pinf, fin _ => true
  | ninf, fin _ => false
  | pinf, pinf => false
  | ninf, ninf => false
  | pinf, ninf => true
  | ninf, pinf => false
  | nan, _ => false
  | _, nan => false

/-- IEEE `==` comparison (any comparison with `NaN` is false, including
`NaN == NaN`). -/
noncomputable def dEqb : DReal → DReal → Bool
  | fin a, fin b => decide (a = b)
  | pinf, pinf => true
  | ninf, ninf => true
  | _, _ => false

end DReal

/-- In-RAM data structure `struct BanditUCBObject`. In the C code the
`counts` and `means` arrays always have exactly `narms` elements. -/
structure BanditUCBObject where
  narms : Nat
  c : ℝ
  counts : List Nat
  means : List ℝ

/-- The C arrays have exactly `narms` elements and every stored count is a
`uint64_t` value. -/
def WF (o : BanditUCBObject) : Prop :=
  o.counts.length = o.narms ∧ o.means.length = o.narms ∧ ∀ k ∈ o.counts, k < U64

/-- `createBanditUCBObject` followed by `zeroBanditUCBObject`, the only way
the C code ever uses the (partially initialised) fresh object outside of
`BanditUCBRdbLoad`: `narms` arms, constant `c`, all counts and means zero. -/
noncomputable def createZeroed (narms : Nat) (c : ℝ) : BanditUCBObject :=
  { narms := narms, c := c
    counts := List.replicate narms 0
    means := List.replicate narms 0 }

/-- `zeroBanditUCBObject`: zero the `narms` counts and `narms` means in
place (the C arrays have exactly `narms` elements). -/
noncomputable def zeroObj (o : BanditUCBObject) : BanditUCBObject :=
  { o with counts := List.replicate o.narms 0, means := List.replicate o.narms 0 }

/-- A reply sent back by a command handler. `crash` marks a NULL-pointer
dereference (undefined behaviour in the C code) and `hang` a `randInt` call
whose supplied draw list never produced an accepted `rand()` value (the C
loop would keep drawing). -/
inductive Reply where
  | err : String → Reply
  | int : Int → Reply
  | pair : Int → ℝ → Reply
  | intArr : List Int → Reply
  | dblArr : List DReal → Reply
  | crash : Reply
  | hang : Reply

/-- `BANDITUCB.INIT <key> <narms> <c>` (`BanditUCBInit_RedisCommand`),
after argument parsing: reject `narms == 0` and `narms > MAX_ARMS`; create a
fresh object when the key is empty, otherwise reuse the existing object
(keeping its `narms` and `c`); zero all counts and means; reply with the
object's `narms`. Returns the new key contents and the reply. -/
noncomputable def initHandler (st : Option BanditUCBObject) (narms : Int) (c : ℝ) :
    Option BanditUCBObject × Reply :=
  if narms = 0 then (st, .err "ERR invalid value: narms must be > 0")
  else if narms > 64 then (st, .err "ERR invalid value: too many arms")
  else
    match st with
    | none =>
        let o := createZeroed (toU32 narms) c
        (some o, .int (o.narms : Int))
    | some o =>
        let o' := zeroObj o
        (some o', .int (o'.narms : Int))

/-- The arm-update block of `BanditUCBAdd_RedisCommand`: increment
`counts[arm]` (a `uint64_t`, hence modulo `2^64`); if the updated count is 1
the new mean is the reward, otherwise
`old_mean + (reward - old_mean) / updated_count`. (The C code writes
`means[arm] = updated_count;` immediately followed by
`means[arm] = updated_mean;`; the net effect of the two consecutive stores
is the second one.) -/
noncomputable def addUpdate (o : BanditUCBObject) (arm : Nat) (reward : ℝ) : BanditUCBObject :=
  let updated_count := (o.counts.getD arm 0 + 1) % U64
  let updated_mean :=
    if updated_count = 1 then reward
    else
      let old_mean := o.means.getD arm 0
      old_mean + (reward - old_mean) / (updated_count : ℝ)
  { o with counts := o.counts.set arm updated_count
           means := o.means.set arm updated_mean }

/-- `BANDITUCB.ADD <key> <arm> <reward>` (`BanditUCBAdd_RedisCommand`),
after argument parsing: error on an empty key, then on an out-of-range arm;
otherwise apply `addUpdate` and reply with the updated count
(`uint64_t` reinterpreted as `long long`) and mean. -/
noncomputable def addHandler (st : Option BanditUCBObject) (in_arm : Int) (reward : ℝ) :
    Option BanditUCBObject × Reply :=
  match st with
  | none => (none, .err "ERR bandit needs to be initialized first")
  | some o =>
      if in_arm < 0 ∨ in_arm ≥ (o.narms : Int) then
        (some o, .err "ERR invalid arm")
      else
        let arm := in_arm.toNat
        let o' := addUpdate o arm reward
        (some o', .pair (toI64 (o'.counts.getD arm 0)) (o'.means.getD arm 0))

/-- `BANDITUCB.SET <key> <arm> <count> <mean>` (`BanditUCBSet_RedisCommand`),
after argument parsing: error on an empty key, then on an out-of-range arm;
otherwise store `counts[arm] = count` (the parsed `long long` converted to
`uint64_t`) and `means[arm] = mean`, and reply with the stored count
(`uint64_t` reinterpreted as `long long`) and mean. -/
noncomputable def setHandler (st : Option BanditUCBObject) (arm count : Int) (mean : ℝ) :
    Option BanditUCBObject × Reply :=
  match st with
  | none => (none, .err "ERR bandit needs to be initialized first")
  | some o =>
      if arm < 0 ∨ arm ≥ (o.narms : Int) then
        (some o, .err "ERR invalid arm")
      else
        let a := arm.toNat
        let o' := { o with counts := o.counts.set a (toU64 count)
                           means := o.means.set a mean }
        (some o', .pair (toI64 (o'.counts.getD a 0)) (o'.means.getD a 0))

/-- glibc `RAND_MAX`. -/
def RAND_MAX : Nat := 2 ^ 31 - 1

/-- `randInt(n)`: rejection sampling over `rand()` draws. `limit` is the
largest multiple of `n` not exceeding `RAND_MAX`; draws `≥ limit` are
rejected and the first accepted draw is reduced modulo `n`. The C loop draws
until acceptance; here the draws are supplied as a list and exhaustion
returns `none`. -/
def randInt (n : Nat) (draws : List Nat) : Option Nat :=
  let limit := (RAND_MAX / n) * n
  match draws.find? (fun r => r < limit) with
  | some r => some (r % n)
  | none => none

/-- `sumcounts`: sum of all `narms` counts in `uint64_t` arithmetic
(wrapping modulo `2^64`). -/
def sumcounts (o : BanditUCBObject) : Nat := o.counts.sum % U64

/-- `computeBounds`: with `t = sumcounts` (converted to `double`; the
conversion is modelled as exact) and `logt = log t`, the bound of arm `i` is
`means[i] + c * sqrt(logt / counts[i])`, with IEEE special-value semantics
for the `log`, division, `sqrt`, multiplication and addition. -/
noncomputable def computeBounds (o : BanditUCBObject) : List DReal :=
  let t : DReal := .fin ((sumcounts o : ℝ))
  let logt := DReal.dLog t
  (List.range o.narms).map (fun i =>
    DReal.dAdd (.fin (o.means.getD i 0))
      (DReal.dMul (.fin o.c)
        (DReal.dSqrt (DReal.dDiv logt (.fin ((o.counts.getD i 0 : ℝ)))))))

/-- The cold-start scan of `BanditUCBPick_RedisCommand`: the arms with
`counts[i] == 0`, in ascending order. -/
def coldChoices (o : BanditUCBObject) : List Nat :=
  (List.range o.narms).filter (fun i => o.counts.getD i 0 = 0)

/-- The running-maximum loop of `BanditUCBPick_RedisCommand`: starting from
`-INFINITY`, replace the best bound whenever `bounds[i] > bestBound`
(IEEE `>`). -/
noncomputable def bestBound (bs : List DReal) : DReal :=
  bs.foldl (fun best b => if DReal.dGtb b best then b else best) .ninf

/-- The tie-collection loop of `BanditUCBPick_RedisCommand`: the arms whose
bound is IEEE-equal to the best bound, in ascending order. -/
noncomputable def boundChoices (o : BanditUCBObject) : List Nat :=
  let bs := computeBounds o
  let best := bestBound bs
  (List.range o.narms).filter (fun i => DReal.dEqb (bs.getD i .nan) best)

/-- The candidate set of `BanditUCBPick_RedisCommand`: the unpulled arms if
any exist, otherwise the arms tied at the best UCB bound. -/
noncomputable def pickChoices (o : BanditUCBObject) : List Nat :=
  let cold := coldChoices o
  if cold.length = 0 then boundChoices o else cold

/-- `BANDITUCB.PICK <key>` (`BanditUCBPick_RedisCommand`). On an empty key
the C code has no empty-key check: `RedisModule_ModuleTypeGetValue` returns
NULL and the subsequent `hto->narms` dereference is undefined behaviour,
modelled as `Reply.crash`. Otherwise: build the candidate set; error
`"no choices"` when it is empty; reply with its only element when it is a
singleton, else with a uniformly drawn element via `randInt`. Picking never
mutates the object. -/
noncomputable def pickHandler (st : Option BanditUCBObject) (draws : List Nat) :
    Reply :=
  match st with
  | none => .crash
  | some o =>
      let choices := pickChoices o
      let nchoices := choices.length
      if nchoices = 0 then .err "no choices"
      else if nchoices = 1 then .int ((choices.getD 0 0 : Int))
      else
        match randInt nchoices draws with
        | some ichoice => .int ((choices.getD ichoice 0 : Int))
        | none => .hang

/-- A sequence of `BANDITUCB.ADD` updates delivered to one arm, in order
(the state-update part; each call's validation and reply are
`addHandler`'s). -/
noncomputable def addSequence (o : BanditUCBObject) (arm : Nat) (rs : List ℝ) :
    BanditUCBObject :=
  rs.foldl (fun s r => addUpdate s arm r) o

/-- One value moved through the RDB stream: `RedisModule_SaveUnsigned` /
`LoadUnsigned` items and `SaveDouble` / `LoadDouble` items. -/
inductive RdbItem where
  | uns : Nat → RdbItem
  | dbl : ℝ → RdbItem

/-- `BanditUCBRdbSave`: emit `narms` (unsigned), `c` (double), then every
count (unsigned), then every mean (double), in that fixed order. -/
def rdbSave (o : BanditUCBObject) : List RdbItem :=
  .uns o.narms :: .dbl o.c :: (o.counts.map .uns ++ o.means.map .dbl)

/-- `RedisModule_LoadUnsigned`: consume one unsigned item. A stream whose
next item is not an unsigned value is a decode failure. -/
def readUns : List RdbItem → Option (Nat × List RdbItem)
  | .uns n :: rest => some (n, rest)
  | _ => none

/-- `RedisModule_LoadDouble`: consume one double item. -/
def readDbl : List RdbItem → Option (ℝ × List RdbItem)
  | .dbl x :: rest => some (x, rest)
  | _ => none

/-- Consume `n` unsigned items (the count-loading loop of
`BanditUCBRdbLoad`). -/
def readUnsN : Nat → List RdbItem → Option (List Nat × List RdbItem)
  | 0, s => some ([], s)
  | n + 1, s => do
      let (x, s1) ← readUns s
      let (xs, s2) ← readUnsN n s1
      some (x :: xs, s2)

/-- Consume `n` double items (the mean-loading loop of
`BanditUCBRdbLoad`). -/
def readDblN : Nat → List RdbItem → Option (List ℝ × List RdbItem)
  | 0, s => some ([], s)
  | n + 1, s => do
      let (x, s1) ← readDbl s
      let (xs, s2) ← readDblN n s1
      some (x :: xs, s2)

/-- `BanditUCBRdbLoad`: reject any encoding version other than 0, then read
`narms`, `c`, the `narms` counts and the `narms` means, in the same fixed
order as `rdbSave`. -/
def rdbLoad (encver : Int) (s : List RdbItem) : Option BanditUCBObject :=
  if encver ≠ 0 then none
  else do
    let (narms, s1) ← readUns s
    let (c, s2) ← readDbl s1
    let (counts, s3) ← readUnsN narms s2
    let (means, _) ← readDblN narms s3
    some { narms := narms, c := c, counts := counts, means := means }

/-- One command emitted by `BanditUCBAofRewrite`: `BANDITUCB.INIT` with the
`"sld"` format (narms as `long long`, `c` as double) or `BANDITUCB.SET`
with the `"slld"` format (arm and count as `long long`, mean as double). -/
inductive AofCmd where
  | init : Int → ℝ → AofCmd
  | set : Int → Int → ℝ → AofCmd

/-- The `BANDITUCB.SET` command emitted by `BanditUCBAofRewrite` for arm
`i`: arm and count go through the `long long` (`"l"`) AOF format, the mean
through the double (`"d"`) format. -/
noncomputable def setCmdFor (o : BanditUCBObject) (i : Nat) : AofCmd :=
  .set (i : Int) (toI64 (o.counts.getD i 0)) (o.means.getD i 0)

/-- `BanditUCBAofRewrite`: one `BANDITUCB.INIT <narms> <c>` followed by one
`BANDITUCB.SET <i> <counts[i]> <means[i]>` per arm in ascending order. -/
noncomputable def aofRewrite (o : BanditUCBObject) : List AofCmd :=
  .init (o.narms : Int) o.c :: (List.range o.narms).map (setCmdFor o)

/-- Replaying one AOF command against a key runs the corresponding command
handler and keeps its resulting key contents. -/
noncomputable def applyCmd (st : Option BanditUCBObject) :
    AofCmd → Option BanditUCBObject
  | .init n c => (initHandler st n c).1
  | .set a cnt m => (setHandler st a cnt m).1

/-- Replaying an AOF command list in order. -/
noncomputable def replay (st : Option BanditUCBObject) (cmds : List AofCmd) :
    Option BanditUCBObject :=
  cmds.foldl applyCmd st

/-! General list helper lemmas. -/

theorem getD_set_self {α : Type} (l : List α) (a : Nat) (v d : α)
    (h : a < l.length) : (l.set a v).getD a d = v := by
  rw [List.getD_eq_getElem?_getD, List.getElem?_set_self h, Option.getD_some]

theorem getD_set_ne {α : Type} (l : List α) {a j : Nat} (v d : α) (h : a ≠ j) :
    (l.set a v).getD j d = l.getD j d := by
  rw [List.getD_eq_getElem?_getD, List.getElem?_set_ne h,
    ← List.getD_eq_getElem?_getD]

/-! Theorems for the specification claims. -/

/-- C2: on an uninitialized/absent key, `BANDITUCB.PICK` does not fail with
the required `PreconditionFailed` error: the C handler, unlike every other
command of the module, has no empty-key check, so it calls
`RedisModule_ModuleTypeGetValue` on the empty key and dereferences the NULL
result (undefined behaviour, modelled as `Reply.crash`). -/
theorem pick_on_uninitialized_crashes :
    pickHandler none [] = Reply.crash ∧
      pickHandler none [] ≠ Reply.err "ERR bandit needs to be initialized first" := by
  constructor
  · rfl
  · intro h
    exact Reply.noConfusion h

/-- C3: `BANDITUCB.INIT` with the negative arm count `-1` is not rejected:
the code only checks `narms == 0` and `narms > MAX_ARMS`, both of which
`-1` passes, so `-1` is converted to the `uint32_t` value `4294967295` and
an object with that many arms is created (far above `MAX_ARMS = 64`),
replying `4294967295` instead of the required error. -/
theorem init_accepts_negative_narms :
    initHandler none (-1) 1 =
      (some { narms := 4294967295, c := 1,
              counts := List.replicate 4294967295 0,
              means := List.replicate 4294967295 0 },
       Reply.int 4294967295) ∧
      Reply.int 4294967295 ≠ Reply.err "ERR invalid value: narms must be > 0" := by
  constructor
  · rfl
  · intro h
    exact Reply.noConfusion h

/-- C1 (counterexample): re-initializing an existing 2-arm instance with
`narms' = 3, c' = 5` does not install the newly supplied parameters: the
old `narms = 2` and `c = 1` are kept (only counts and means are zeroed) and
the reply is the old arm count 2, not the supplied 3. -/
theorem reinit_ignores_new_parameters :
    initHandler (some { narms := 2, c := 1, counts := [3, 4], means := [10, 20] }) 3 5 =
      (some { narms := 2, c := 1, counts := [0, 0], means := [0, 0] }, Reply.int 2) ∧
      Reply.int 2 ≠ Reply.int 3 := by
  constructor
  · rfl
  · intro h
    injection h with h
    norm_num at h

/-- C1 (amended): re-initialization on an existing instance is a hard reset
of the statistics only: for any supplied `narms'` passing validation
(`narms' ≠ 0` and `narms' ≤ 64`) and any `c'`, the existing `narms` and `c`
are kept (the newly supplied values are discarded), every pull count and
mean is reset to zero, and the reply is the existing arm count. -/
theorem reinit_resets_stats_keeps_parameters (o : BanditUCBObject) (narms' : Int)
    (c' : ℝ) (h0 : narms' ≠ 0) (h64 : ¬ narms' > 64) :
    initHandler (some o) narms' c' =
      (some { narms := o.narms, c := o.c,
              counts := List.replicate o.narms 0,
              means := List.replicate o.narms 0 },
       Reply.int (o.narms : Int)) := by
  simp only [initHandler, if_neg h0, if_neg h64, zeroObj]

/-- Witness for C1 (amended) at a concrete re-initialization. -/
theorem reinit_resets_stats_keeps_parameters_witness :
    initHandler (some { narms := 2, c := 1, counts := [3, 4], means := [10, 20] }) 5 7 =
      (some { narms := 2, c := 1, counts := List.replicate 2 0,
              means := List.replicate 2 0 },
       Reply.int 2) :=
  reinit_resets_stats_keeps_parameters
    { narms := 2, c := 1, counts := [3, 4], means := [10, 20] } 5 7
    (by decide) (by decide)

/-- C7: `BANDITUCB.SET` with the negative count `-1` is not rejected: the
parsed `long long` is stored into the `uint64_t` counts slot, silently
reinterpreting `-1` as `18446744073709551615`, and the command replies as
if it succeeded (with the count read back as `long long`, i.e. `-1`). -/
theorem set_negative_count_reinterpreted :
    setHandler (some { narms := 2, c := 1, counts := [0, 0], means := [0, 0] }) 0 (-1) 7 =
      (some { narms := 2, c := 1, counts := [18446744073709551615, 0],
              means := [7, 0] },
       Reply.pair (-1) 7) ∧
      Reply.pair (-1) 7 ≠
        Reply.err "ERR invalid value: count must be an unsigned 64 bit integer" := by
  constructor
  · rfl
  · intro h
    exact Reply.noConfusion h

/-- Auxiliary for C4: running `addSequence` on an arm that already has
`k ≥ 1` pulls with mean `m` gives `k + n` pulls and the correspondingly
weighted mean. -/
theorem addSequence_from (arm : Nat) (rs : List ℝ) :
    ∀ (o : BanditUCBObject) (k : Nat) (m : ℝ),
      arm < o.counts.length → arm < o.means.length →
      o.counts.getD arm 0 = k → o.means.getD arm 0 = m →
      1 ≤ k → k + rs.length < U64 →
      (addSequence o arm rs).counts.length = o.counts.length ∧
      (addSequence o arm rs).means.length = o.means.length ∧
      (addSequence o arm rs).counts.getD arm 0 = k + rs.length ∧
      (addSequence o arm rs).means.getD arm 0 =
        ((k : ℝ) * m + rs.sum) / ((k : ℝ) + (rs.length : ℝ)) := by
  induction rs with
  | nil =>
      intro o k m hlc hlm hct hmn hk1 hlt
      have hk0 : (k : ℝ) ≠ 0 := Nat.cast_ne_zero.mpr (by omega)
      refine ⟨rfl, rfl, by simpa [addSequence] using hct, ?_⟩
      simp only [addSequence, List.foldl_nil, List.sum_nil, List.length_nil,
        Nat.cast_zero, add_zero, hmn]
      field_simp
  | cons r rest ih =>
      intro o k m hlc hlm hct hmn hk1 hlt
      have hseq : addSequence o arm (r :: rest) =
          addSequence (addUpdate o arm r) arm rest := rfl
      have hcnt1 : (o.counts.getD arm 0 + 1) % U64 = k + 1 := by
        rw [hct]
        have : k + 1 < U64 := by simp at hlt; omega
        exact Nat.mod_eq_of_lt this
      have hne1 : k + 1 ≠ 1 := by omega
      have hupd : addUpdate o arm r =
          { o with counts := o.counts.set arm (k + 1),
                   means := o.means.set arm (m + (r - m) / ((k : ℝ) + 1)) } := by
        simp only [addUpdate, hcnt1, if_neg hne1, hmn]
        push_cast
        rfl
      have hlc' : arm < (addUpdate o arm r).counts.length := by
        rw [hupd]; simpa using hlc
      have hlm' : arm < (addUpdate o arm r).means.length := by
        rw [hupd]; simpa using hlm
      have hct' : (addUpdate o arm r).counts.getD arm 0 = k + 1 := by
        rw [hupd]; exact getD_set_self _ _ _ _ hlc
      have hmn' : (addUpdate o arm r).means.getD arm 0 = m + (r - m) / ((k : ℝ) + 1) := by
        rw [hupd]; exact getD_set_self _ _ _ _ hlm
      have hlt' : (k + 1) + rest.length < U64 := by simp at hlt; omega
      obtain ⟨e1, e2, e3, e4⟩ := ih (addUpdate o arm r) (k + 1)
        (m + (r - m) / ((k : ℝ) + 1)) hlc' hlm' hct' hmn' (by omega) hlt'
      have hl1 : (addUpdate o arm r).counts.length = o.counts.length := by
        rw [hupd]; simp
      have hl2 : (addUpdate o arm r).means.length = o.means.length := by
        rw [hupd]; simp
      refine ⟨hseq ▸ (e1.trans hl1), hseq ▸ (e2.trans hl2), ?_, ?_⟩
      · rw [hseq, e3]; simp; omega
      · rw [hseq, e4]
        have hk0 : ((k : ℝ) + 1) ≠ 0 := by positivity
        have hnum : ((k : ℝ) + 1) * (m + (r - m) / ((k : ℝ) + 1)) =
            (k : ℝ) * m + r := by field_simp; ring
        simp only [List.sum_cons, List.length_cons]
        push_cast
        rw [hnum]
        ring_nf

/-- C4: starting from an arm with zero pulls, delivering the rewards
`r_1..r_n` (`n ≥ 1`) to that arm through the `BANDITUCB.ADD` update yields
`pull_count = n` and `running_mean = (r_1+...+r_n)/n` (the incremental
update is equivalent to the batch mean), and every single `BANDITUCB.ADD`
call on an in-range arm replies with the post-update (count, mean) pair of
that arm. -/
theorem add_incremental_mean_is_batch_mean (o : BanditUCBObject) (arm : Nat)
    (rs : List ℝ) (hlc : arm < o.counts.length) (hlm : arm < o.means.length)
    (h0 : o.counts.getD arm 0 = 0) (hne : rs ≠ []) (hlen : rs.length < U64) :
    (addSequence o arm rs).counts.getD arm 0 = rs.length ∧
    (addSequence o arm rs).means.getD arm 0 = rs.sum / (rs.length : ℝ) ∧
    (∀ (s : BanditUCBObject) (r : ℝ), arm < s.narms →
      addHandler (some s) ((arm : Int)) r =
        (some (addUpdate s arm r),
         Reply.pair (toI64 ((addUpdate s arm r).counts.getD arm 0))
           ((addUpdate s arm r).means.getD arm 0))) := by
  have hreply : ∀ (s : BanditUCBObject) (r : ℝ), arm < s.narms →
      addHandler (some s) ((arm : Int)) r =
        (some (addUpdate s arm r),
         Reply.pair (toI64 ((addUpdate s arm r).counts.getD arm 0))
           ((addUpdate s arm r).means.getD arm 0)) := by
    intro s r hr
    have hcond : ¬((arm : Int) < 0 ∨ (arm : Int) ≥ (s.narms : Int)) := by omega
    simp only [addHandler, if_neg hcond, Int.toNat_natCast]
  match rs, hne with
  | r :: rest, _ =>
    have hcnt1 : (o.counts.getD arm 0 + 1) % U64 = 1 := by
      rw [h0]
      exact Nat.mod_eq_of_lt (by norm_num [U64])
    have hupd : addUpdate o arm r =
        { o with counts := o.counts.set arm 1, means := o.means.set arm r } := by
      simp only [addUpdate, hcnt1]
      simp
    have hseq : addSequence o arm (r :: rest) =
        addSequence (addUpdate o arm r) arm rest := rfl
    have hlc' : arm < (addUpdate o arm r).counts.length := by
      rw [hupd]; simpa using hlc
    have hlm' : arm < (addUpdate o arm r).means.length := by
      rw [hupd]; simpa using hlm
    have hct' : (addUpdate o arm r).counts.getD arm 0 = 1 := by
      rw [hupd]; exact getD_set_self _ _ _ _ hlc
    have hmn' : (addUpdate o arm r).means.getD arm 0 = r := by
      rw [hupd]; exact getD_set_self _ _ _ _ hlm
    have hlt' : 1 + rest.length < U64 := by
      simp only [List.length_cons] at hlen; omega
    obtain ⟨_, _, e3, e4⟩ := addSequence_from arm rest (addUpdate o arm r) 1 r
      hlc' hlm' hct' hmn' le_rfl hlt'
    refine ⟨?_, ?_, hreply⟩
    · rw [hseq, e3]; simp; omega
    · rw [hseq, e4]
      simp only [List.sum_cons, List.length_cons]
      push_cast
      ring_nf

/-- Witness for C4: two rewards 2 and 4 on the single arm of a fresh
1-arm bandit give count 2 and mean 3 by the theorem's formula. -/
theorem add_incremental_mean_is_batch_mean_witness :
    (addSequence { narms := 1, c := 1, counts := [0], means := [0] } 0 [2, 4]).counts.getD 0 0 =
      ([(2 : ℝ), 4]).length ∧
    (addSequence { narms := 1, c := 1, counts := [0], means := [0] } 0 [2, 4]).means.getD 0 0 =
      ([(2 : ℝ), 4]).sum / (([(2 : ℝ), 4]).length : ℝ) ∧
    (∀ (s : BanditUCBObject) (r : ℝ), 0 < s.narms →
      addHandler (some s) (((0 : Nat) : Int)) r =
        (some (addUpdate s 0 r),
         Reply.pair (toI64 ((addUpdate s 0 r).counts.getD 0 0))
           ((addUpdate s 0 r).means.getD 0 0))) :=
  add_incremental_mean_is_batch_mean
    { narms := 1, c := 1, counts := [0], means := [0] } 0 [2, 4]
    (by decide) (by decide) (by decide) (by simp) (by norm_num [U64])

/-- C10: a successful `BANDITUCB.ADD` or `BANDITUCB.SET` targeting arm `a`
only writes that arm's count and mean: `narms`, `c` and every other arm's
count and mean are unchanged. -/
theorem add_set_frame_locality (o : BanditUCBObject) (a j : Nat) (r : ℝ)
    (cnt : Int) (mn : ℝ) (ha : a < o.narms) (hj : j ≠ a) :
    (addHandler (some o) ((a : Int)) r).1 = some (addUpdate o a r) ∧
    (addUpdate o a r).narms = o.narms ∧
    (addUpdate o a r).c = o.c ∧
    (addUpdate o a r).counts.getD j 0 = o.counts.getD j 0 ∧
    (addUpdate o a r).means.getD j 0 = o.means.getD j 0 ∧
    (setHandler (some o) ((a : Int)) cnt mn).1 =
      some { o with counts := o.counts.set a (toU64 cnt),
                    means := o.means.set a mn } ∧
    (o.counts.set a (toU64 cnt)).getD j 0 = o.counts.getD j 0 ∧
    (o.means.set a mn).getD j 0 = o.means.getD j 0 := by
  have hcond : ¬((a : Int) < 0 ∨ (a : Int) ≥ (o.narms : Int)) := by omega
  refine ⟨?_, rfl, rfl, ?_, ?_, ?_, ?_, ?_⟩
  · simp only [addHandler, if_neg hcond, Int.toNat_natCast]
  · exact getD_set_ne _ _ _ (Ne.symm hj)
  · exact getD_set_ne _ _ _ (Ne.symm hj)
  · simp only [setHandler, if_neg hcond, Int.toNat_natCast]
  · exact getD_set_ne _ _ _ (Ne.symm hj)
  · exact getD_set_ne _ _ _ (Ne.symm hj)

/-- Witness for C10 at a concrete 2-arm state, updating arm 0 and
observing arm 1. -/
theorem add_set_frame_locality_witness :
    (addHandler (some { narms := 2, c := 1, counts := [1, 2], means := [3, 4] })
        (((0 : Nat) : Int)) 5).1 =
      some (addUpdate { narms := 2, c := 1, counts := [1, 2], means := [3, 4] } 0 5) ∧
    (addUpdate { narms := 2, c := 1, counts := [1, 2], means := [3, 4] } 0 5).narms = 2 ∧
    (addUpdate { narms := 2, c := 1, counts := [1, 2], means := [3, 4] } 0 5).c = 1 ∧
    (addUpdate { narms := 2, c := 1, counts := [1, 2], means := [3, 4] } 0 5).counts.getD 1 0 =
      ([1, 2] : List Nat).getD 1 0 ∧
    (addUpdate { narms := 2, c := 1, counts := [1, 2], means := [3, 4] } 0 5).means.getD 1 0 =
      ([(3 : ℝ), 4]).getD 1 0 ∧
    (setHandler (some { narms := 2, c := 1, counts := [1, 2], means := [3, 4] })
        (((0 : Nat) : Int)) 6 7).1 =
      some { narms := 2, c := 1, counts := ([1, 2] : List Nat).set 0 (toU64 6),
             means := ([(3 : ℝ), 4]).set 0 7 } ∧
    (([1, 2] : List Nat).set 0 (toU64 6)).getD 1 0 = ([1, 2] : List Nat).getD 1 0 ∧
    (([(3 : ℝ), 4]).set 0 7).getD 1 0 = ([(3 : ℝ), 4]).getD 1 0 :=
  add_set_frame_locality { narms := 2, c := 1, counts := [1, 2], means := [3, 4] }
    0 1 5 6 7 (by decide) (by decide)

/-- Auxiliary for C8: the count-reading loop consumes exactly the mapped
unsigned items. -/
theorem readUnsN_append (xs : List Nat) (rest : List RdbItem) :
    readUnsN xs.length (xs.map RdbItem.uns ++ rest) = some (xs, rest) := by
  induction xs with
  | nil => rfl
  | cons x xs ih => simp [readUnsN, readUns, ih]

/-- Auxiliary for C8: the mean-reading loop consumes exactly the mapped
double items. -/
theorem readDblN_append (xs : List ℝ) (rest : List RdbItem) :
    readDblN xs.length (xs.map RdbItem.dbl ++ rest) = some (xs, rest) := by
  induction xs with
  | nil => rfl
  | cons x xs ih => simp [readDblN, readDbl, ih]

/-- C8: RDB round trip — loading (at encoding version 0) the stream
produced by `rdbSave`, whose fixed field order is `narms`, `c`, all counts,
all means, reconstructs an identical object. -/
theorem rdb_round_trip (o : BanditUCBObject) (h1 : o.counts.length = o.narms)
    (h2 : o.means.length = o.narms) :
    rdbLoad 0 (rdbSave o) = some o := by
  have hc : readUnsN o.narms (o.counts.map RdbItem.uns ++ o.means.map RdbItem.dbl) =
      some (o.counts, o.means.map RdbItem.dbl) := by
    rw [← h1]
    exact readUnsN_append o.counts (o.means.map RdbItem.dbl)
  have hm : readDblN o.narms (o.means.map RdbItem.dbl) = some (o.means, []) := by
    rw [← h2]
    simpa using readDblN_append o.means []
  simp [rdbLoad, rdbSave, readUns, readDbl, hc, hm]

/-- Witness for C8 at a concrete 2-arm state. -/
theorem rdb_round_trip_witness :
    rdbLoad 0 (rdbSave { narms := 2, c := 1, counts := [1, 2], means := [3, 4] }) =
      some { narms := 2, c := 1, counts := [1, 2], means := [3, 4] } :=
  rdb_round_trip { narms := 2, c := 1, counts := [1, 2], means := [3, 4] }
    (by decide) (by decide)

/-- Structure extensionality for `BanditUCBObject`. -/
theorem obj_ext {s o : BanditUCBObject} (h1 : s.narms = o.narms) (h2 : s.c = o.c)
    (h3 : s.counts = o.counts) (h4 : s.means = o.means) : s = o := by
  cases s
  cases o
  simp_all

/-- Two lists of equal length agreeing at every `getD` position are equal. -/
theorem list_ext_getD {α : Type} (l l' : List α) (d : α) (hl : l.length = l'.length)
    (h : ∀ i, i < l.length → l.getD i d = l'.getD i d) : l = l' := by
  refine List.ext_getElem hl (fun i h1 h2 => ?_)
  have hi := h i h1
  rwa [List.getD_eq_getElem _ _ h1, List.getD_eq_getElem _ _ h2] at hi

/-- Auxiliary for C9: a `uint64_t` count survives the round trip through
the AOF `long long` format and `BANDITUCB.SET`'s conversion back. -/
theorem toU64_toI64 (v : Nat) (hv : v < U64) : toU64 (toI64 v) = v := by
  unfold toU64 toI64
  norm_num [U64] at hv ⊢
  split <;> omega

/-- Auxiliary for C9: replaying the emitted `BANDITUCB.SET` commands for
arms `0..k-1` over any state of the right shape installs the first `k`
counts and means of the original object. -/
theorem replay_sets (o : BanditUCBObject)
    (hcb : ∀ i, i < o.narms → o.counts.getD i 0 < U64) (k : Nat) :
    k ≤ o.narms → ∀ s : BanditUCBObject,
      s.narms = o.narms → s.c = o.c →
      s.counts.length = o.narms → s.means.length = o.narms →
      ∃ s', replay (some s) ((List.range k).map (setCmdFor o)) = some s' ∧
        s'.narms = o.narms ∧ s'.c = o.c ∧
        s'.counts.length = o.narms ∧ s'.means.length = o.narms ∧
        (∀ j, j < k → s'.counts.getD j 0 = o.counts.getD j 0 ∧
          s'.means.getD j 0 = o.means.getD j 0) := by
  induction k with
  | zero =>
      intro _ s h1 h2 h3 h4
      exact ⟨s, rfl, h1, h2, h3, h4, fun j hj => absurd hj (Nat.not_lt_zero j)⟩
  | succ k ih =>
      intro hk s h1 h2 h3 h4
      obtain ⟨s', he, e1, e2, e3, e4, e5⟩ := ih (by omega) s h1 h2 h3 h4
      have hkn : k < o.narms := by omega
      have hmap : (List.range (k + 1)).map (setCmdFor o) =
          (List.range k).map (setCmdFor o) ++ [setCmdFor o k] := by
        rw [List.range_succ]
        simp
      have hstep : replay (some s) ((List.range (k + 1)).map (setCmdFor o)) =
          applyCmd (some s') (setCmdFor o k) := by
        rw [hmap]
        unfold replay
        rw [List.foldl_append]
        unfold replay at he
        rw [he]
        rfl
      have hcond : ¬((k : Int) < 0 ∨ (k : Int) ≥ (s'.narms : Int)) := by
        rw [e1]
        omega
      have happ : applyCmd (some s') (setCmdFor o k) =
          some { s' with counts := s'.counts.set k (toU64 (toI64 (o.counts.getD k 0))),
                         means := s'.means.set k (o.means.getD k 0) } := by
        simp only [applyCmd, setCmdFor, setHandler, if_neg hcond, Int.toNat_natCast]
      refine ⟨_, hstep.trans happ, e1, e2, by simpa using e3, by simpa using e4, ?_⟩
      intro j hj
      rcases Nat.lt_or_ge j k with hjk | hjk
      · have := e5 j hjk
        constructor
        · rw [getD_set_ne _ _ _ (by omega : k ≠ j)]
          exact this.1
        · rw [getD_set_ne _ _ _ (by omega : k ≠ j)]
          exact this.2
      · have hjk' : j = k := by omega
        subst hjk'
        constructor
        · rw [getD_set_self _ _ _ _ (by omega : j < s'.counts.length),
            toU64_toI64 _ (hcb j hkn)]
        · rw [getD_set_self _ _ _ _ (by omega : j < s'.means.length)]

/-- C9: replay reconstruction — applying the AOF rewrite sequence of a
valid state (one `BANDITUCB.INIT` with its `narms` and `c`, then one
`BANDITUCB.SET` per arm in ascending order) to a fresh empty key rebuilds a
state identical in `narms`, `c`, every count and every mean. -/
theorem aof_replay_reconstructs (o : BanditUCBObject)
    (h1 : o.counts.length = o.narms) (h2 : o.means.length = o.narms)
    (hcb : ∀ i, i < o.narms → o.counts.getD i 0 < U64)
    (hn1 : 1 ≤ o.narms) (hn64 : o.narms ≤ 64) :
    replay none (aofRewrite o) = some o := by
  have hc0 : ¬((o.narms : Int) = 0) := by omega
  have hc64 : ¬((o.narms : Int) > 64) := by omega
  have hu32 : toU32 ((o.narms : Nat) : Int) = o.narms := by
    unfold toU32
    norm_num [U32]
    omega
  have hinit : applyCmd none (.init (o.narms : Int) o.c) =
      some (createZeroed o.narms o.c) := by
    simp only [applyCmd, initHandler, if_neg hc0, if_neg hc64, hu32]
  obtain ⟨s', he, e1, e2, e3, e4, e5⟩ := replay_sets o hcb o.narms le_rfl
    (createZeroed o.narms o.c) rfl rfl (List.length_replicate ..) (List.length_replicate ..)
  have hrepl : replay none (aofRewrite o) = some s' := by
    unfold aofRewrite replay
    rw [List.foldl_cons, hinit]
    exact he
  rw [hrepl]
  congr 1
  refine obj_ext e1 e2 ?_ ?_
  · refine list_ext_getD _ _ 0 (by omega) (fun i hi => ?_)
    exact (e5 i (by omega)).1
  · refine list_ext_getD _ _ 0 (by omega) (fun i hi => ?_)
    exact (e5 i (by omega)).2

/-- Witness for C9 at a concrete 2-arm state. -/
theorem aof_replay_reconstructs_witness :
    replay none (aofRewrite { narms := 2, c := 1, counts := [1, 2], means := [3, 4] }) =
      some { narms := 2, c := 1, counts := [1, 2], means := [3, 4] } :=
  aof_replay_reconstructs { narms := 2, c := 1, counts := [1, 2], means := [3, 4] }
    (by decide) (by decide)
    (by intro i hi; interval_cases i <;> decide)
    (by decide) (by decide)

/-- Auxiliary for C5: an accepted `randInt` draw is a valid index below
`n`. -/
theorem randInt_lt (n : Nat) (hn : 0 < n) (draws : List Nat) (i : Nat)
    (h : randInt n draws = some i) : i < n := by
  simp only [randInt] at h
  split at h
  · simp only [Option.some_inj] at h
    rw [← h]
    exact Nat.mod_lt _ hn
  · exact absurd h (by simp)

/-- Auxiliary for C5: `getD` at a valid index is a member of the list. -/
theorem getD_mem {l : List Nat} {i : Nat} (h : i < l.length) : l.getD i 0 ∈ l := by
  rw [List.getD_eq_getElem _ _ h]
  exact List.getElem_mem h

/-- Auxiliary for C5: the cold-start candidate set is exactly the in-range
arms with zero pulls. -/
theorem coldChoices_mem (o : BanditUCBObject) (a : Nat) :
    a ∈ coldChoices o ↔ a < o.narms ∧ o.counts.getD a 0 = 0 := by
  simp [coldChoices, List.mem_filter, List.mem_range]

/-- C5: cold-start precedence — whenever some arm is unpulled, the
candidate set of `BANDITUCB.PICK` is exactly the cold-start set (the UCB
bound comparison is skipped), every candidate (hence every arm the command
can reply) has zero pulls, and the bound-comparison phase is reached only
when every arm has been pulled at least once. -/
theorem pick_cold_start (o : BanditUCBObject) :
    (∀ i0, i0 < o.narms → o.counts.getD i0 0 = 0 →
      pickChoices o = coldChoices o ∧
      (∀ a, a ∈ pickChoices o → a < o.narms ∧ o.counts.getD a 0 = 0) ∧
      (∀ draws r, pickHandler (some o) draws = Reply.int r →
        ∃ a : Nat, r = (a : Int) ∧ a < o.narms ∧ o.counts.getD a 0 = 0)) ∧
    (coldChoices o = [] → ∀ i, i < o.narms → 1 ≤ o.counts.getD i 0) := by
  constructor
  · intro i0 hi0 hz
    have hmem : i0 ∈ coldChoices o := (coldChoices_mem o i0).mpr ⟨hi0, hz⟩
    have hne : coldChoices o ≠ [] := by
      intro h
      rw [h] at hmem
      exact absurd hmem (List.not_mem_nil i0)
    have hlen0 : ¬(coldChoices o).length = 0 :=
      fun h => hne (List.length_eq_zero.mp h)
    have hcold : pickChoices o = coldChoices o := by
      unfold pickChoices
      rw [if_neg hlen0]
    refine ⟨hcold, ?_, ?_⟩
    · intro a ha
      rw [hcold] at ha
      exact (coldChoices_mem o a).mp ha
    · intro draws r hr
      simp only [pickHandler, hcold] at hr
      rw [if_neg hlen0] at hr
      by_cases h1 : (coldChoices o).length = 1
      · rw [if_pos h1] at hr
        injection hr with hr
        have hm := (coldChoices_mem o _).mp (getD_mem (l := coldChoices o)
          (i := 0) (by omega))
        exact ⟨(coldChoices o).getD 0 0, hr.symm, hm.1, hm.2⟩
      · rw [if_neg h1] at hr
        cases hri : randInt (coldChoices o).length draws with
        | none =>
            rw [hri] at hr
            exact Reply.noConfusion hr
        | some i =>
            rw [hri] at hr
            injection hr with hr
            have hi : i < (coldChoices o).length :=
              randInt_lt _ (by omega) draws i hri
            have hm := (coldChoices_mem o _).mp (getD_mem hi)
            exact ⟨(coldChoices o).getD i 0, hr.symm, hm.1, hm.2⟩
  · intro hempty i hi
    by_contra hcnt
    have : i ∈ coldChoices o := (coldChoices_mem o i).mpr ⟨hi, by omega⟩
    rw [hempty] at this
    exact absurd this (List.not_mem_nil i)

/-- Witness for C5: on a 2-arm state whose arm 1 is unpulled, the
candidate set is the cold-start set and any reply has zero pulls. -/
theorem pick_cold_start_witness :
    pickChoices { narms := 2, c := 1, counts := [1, 0], means := [5, 0] } =
      coldChoices { narms := 2, c := 1, counts := [1, 0], means := [5, 0] } ∧
    (∀ a, a ∈ pickChoices { narms := 2, c := 1, counts := [1, 0], means := [5, 0] } →
      a < 2 ∧ ([1, 0] : List Nat).getD a 0 = 0) ∧
    (∀ draws r,
      pickHandler (some { narms := 2, c := 1, counts := [1, 0], means := [5, 0] }) draws =
        Reply.int r →
      ∃ a : Nat, r = (a : Int) ∧ a < 2 ∧ ([1, 0] : List Nat).getD a 0 = 0) :=
  (pick_cold_start { narms := 2, c := 1, counts := [1, 0], means := [5, 0] }).1
    1 (by decide) (by decide)

/-- Auxiliary for C6: the bound of an in-range arm, as the `DReal`
expression the code computes. -/
theorem computeBounds_getD (o : BanditUCBObject) (i : Nat) (hi : i < o.narms) :
    (computeBounds o).getD i .nan =
      DReal.dAdd (.fin (o.means.getD i 0))
        (DReal.dMul (.fin o.c)
          (DReal.dSqrt (DReal.dDiv (DReal.dLog (.fin ((sumcounts o : ℝ))))
            (.fin ((o.counts.getD i 0 : ℝ)))))) := by
  unfold computeBounds
  rw [List.getD_eq_getElem _ _ (by simpa using hi)]
  simp

/-! Equation lemmas for the `DReal` operations, used to evaluate
`computeBounds` step by step. -/

theorem dLog_fin (a : ℝ) : DReal.dLog (.fin a) =
    if 0 < a then .fin (Real.log a) else if a = 0 then .ninf else .nan := rfl

theorem dDiv_fin_fin (a b : ℝ) : DReal.dDiv (.fin a) (.fin b) =
    if b = 0 then (if 0 < a then .pinf else if a < 0 then .ninf else .nan)
    else .fin (a / b) := rfl

theorem dDiv_ninf_fin (b : ℝ) : DReal.dDiv .ninf (.fin b) =
    if b < 0 then .pinf else .ninf := rfl

theorem dSqrt_fin (a : ℝ) : DReal.dSqrt (.fin a) =
    if 0 ≤ a then .fin (Real.sqrt a) else .nan := rfl

theorem dSqrt_pinf : DReal.dSqrt .pinf = .pinf := rfl

theorem dSqrt_ninf : DReal.dSqrt .ninf = .nan := rfl

theorem dSqrt_nan : DReal.dSqrt .nan = .nan := rfl

theorem dMul_fin_fin (a b : ℝ) : DReal.dMul (.fin a) (.fin b) = .fin (a * b) := rfl

theorem dMul_fin_pinf (a : ℝ) : DReal.dMul (.fin a) .pinf =
    if 0 < a then .pinf else if a < 0 then .ninf else .nan := rfl

theorem dMul_fin_nan (a : ℝ) : DReal.dMul (.fin a) .nan = .nan := rfl

theorem dAdd_fin_fin (a b : ℝ) : DReal.dAdd (.fin a) (.fin b) = .fin (a + b) := rfl

theorem dAdd_fin_pinf (a : ℝ) : DReal.dAdd (.fin a) .pinf = .pinf := rfl

theorem dAdd_fin_ninf (a : ℝ) : DReal.dAdd (.fin a) .ninf = .ninf := rfl

theorem dAdd_fin_nan (a : ℝ) : DReal.dAdd (.fin a) .nan = .nan := rfl

/-- C6 (counterexample): on the state with counts `[2, 0]`, `c = 1` and
zero means, the bound of the unpulled arm 1 is `+infinity`, not `NaN`: the
total is `t = 2`, so `log t > 0` and the IEEE division `log t / 0` gives
`+inf`, which `sqrt`, the multiplication by `c = 1` and the addition of the
mean all preserve. -/
theorem computeBounds_zero_count_not_nan :
    (computeBounds { narms := 2, c := 1, counts := [2, 0], means := [0, 0] }).getD 1 .nan =
      DReal.pinf ∧ DReal.pinf ≠ DReal.nan := by
  constructor
  · have hg1 : ({ narms := 2, c := 1, counts := [2, 0], means := [0, 0] } :
        BanditUCBObject).counts.getD 1 0 = 0 := rfl
    have hg2 : ({ narms := 2, c := 1, counts := [2, 0], means := [0, 0] } :
        BanditUCBObject).means.getD 1 0 = 0 := rfl
    have hs : sumcounts { narms := 2, c := 1, counts := [2, 0], means := [0, 0] } = 2 := by
      norm_num [sumcounts, U64]
    rw [computeBounds_getD { narms := 2, c := 1, counts := [2, 0], means := [0, 0] } 1
        (by decide), hg1, hg2, hs, Nat.cast_zero, dLog_fin,
      if_pos (by norm_num : (0 : ℝ) < ((2 : ℕ) : ℝ)), dDiv_fin_fin, if_pos rfl,
      if_pos (Real.log_pos (by norm_num : (1 : ℝ) < ((2 : ℕ) : ℝ))), dSqrt_pinf,
      dMul_fin_pinf, if_pos (one_pos (α := ℝ)), dAdd_fin_pinf]
  · exact fun h => DReal.noConfusion h

/-- C6 (amended): with `t` the total pull count, every arm with
`pull_count ≥ 1` gets the exact bound
`mean + c * sqrt(log t / pull_count)`, and every arm with `pull_count = 0`
gets a non-finite bound (`NaN` or an infinity, depending on `t` and the
sign of `c`). -/
theorem computeBounds_formula (o : BanditUCBObject)
    (hsum : o.counts.sum < U64) (h1 : o.counts.length = o.narms) :
    (∀ i, i < o.narms → 1 ≤ o.counts.getD i 0 →
      (computeBounds o).getD i .nan =
        .fin (o.means.getD i 0 +
          o.c * Real.sqrt (Real.log ((o.counts.sum : ℝ)) /
            ((o.counts.getD i 0 : ℝ))))) ∧
    (∀ i, i < o.narms → o.counts.getD i 0 = 0 →
      ∀ x : ℝ, (computeBounds o).getD i .nan ≠ .fin x) := by
  have hsc : sumcounts o = o.counts.sum := Nat.mod_eq_of_lt hsum
  constructor
  · intro i hi hcnt
    have hmem : o.counts.getD i 0 ∈ o.counts := getD_mem (by omega)
    have hts : o.counts.getD i 0 ≤ o.counts.sum :=
      List.single_le_sum (fun x _ => Nat.zero_le x) _ hmem
    have htpos : (0 : ℝ) < ((o.counts.sum : ℕ) : ℝ) :=
      Nat.cast_pos.mpr (by omega)
    have hcpos : (0 : ℝ) < ((o.counts.getD i 0 : ℕ) : ℝ) :=
      Nat.cast_pos.mpr (by omega)
    have h1s : 1 ≤ o.counts.sum := by omega
    have hlognn : 0 ≤ Real.log ((o.counts.sum : ℕ) : ℝ) :=
      Real.log_nonneg (by exact_mod_cast h1s)
    rw [computeBounds_getD o i hi, hsc, dLog_fin, if_pos htpos, dDiv_fin_fin,
      if_neg (ne_of_gt hcpos), dSqrt_fin,
      if_pos (div_nonneg hlognn (le_of_lt hcpos)), dMul_fin_fin, dAdd_fin_fin]
  · intro i hi hz x
    rw [computeBounds_getD o i hi, hsc, hz, Nat.cast_zero]
    rcases Nat.lt_or_ge o.counts.sum 1 with hs | hs
    · have hs0 : o.counts.sum = 0 := by omega
      rw [hs0, Nat.cast_zero, dLog_fin, if_neg (lt_irrefl (0 : ℝ)), if_pos rfl,
        dDiv_ninf_fin, if_neg (lt_irrefl (0 : ℝ)), dSqrt_ninf, dMul_fin_nan,
        dAdd_fin_nan]
      exact fun h => DReal.noConfusion h
    · rcases Nat.lt_or_ge o.counts.sum 2 with hs2 | hs2
      · have hs1 : o.counts.sum = 1 := by omega
        rw [hs1, Nat.cast_one, dLog_fin, if_pos (one_pos (α := ℝ)), Real.log_one,
          dDiv_fin_fin, if_pos rfl, if_neg (lt_irrefl (0 : ℝ)),
          if_neg (lt_irrefl (0 : ℝ)), dSqrt_nan, dMul_fin_nan, dAdd_fin_nan]
        exact fun h => DReal.noConfusion h
      · have htpos : (0 : ℝ) < ((o.counts.sum : ℕ) : ℝ) :=
          Nat.cast_pos.mpr (by omega)
        have hlogpos : (0 : ℝ) < Real.log ((o.counts.sum : ℕ) : ℝ) := by
          refine Real.log_pos ?_
          exact_mod_cast by omega
        rw [dLog_fin, if_pos htpos, dDiv_fin_fin, if_pos rfl, if_pos hlogpos,
          dSqrt_pinf, dMul_fin_pinf]
        rcases lt_trichotomy (0 : ℝ) o.c with hc | hc | hc
        · rw [if_pos hc, dAdd_fin_pinf]
          exact fun h => DReal.noConfusion h
        · have hna : ¬(0 : ℝ) < o.c := by rw [← hc]; exact lt_irrefl 0
          have hnb : ¬o.c < (0 : ℝ) := by rw [← hc]; exact lt_irrefl 0
          rw [if_neg hna, if_neg hnb, dAdd_fin_nan]
          exact fun h => DReal.noConfusion h
        · rw [if_neg (asymm hc), if_pos hc, dAdd_fin_ninf]
          exact fun h => DReal.noConfusion h

/-- Witness for C6 (amended) on a 1-arm state with one pull. -/
theorem computeBounds_formula_witness :
    (∀ i, i < 1 → 1 ≤ ([1] : List Nat).getD i 0 →
      (computeBounds { narms := 1, c := 1, counts := [1], means := [0] }).getD i .nan =
        .fin (([(0 : ℝ)]).getD i 0 +
          1 * Real.sqrt (Real.log ((([1] : List Nat).sum : ℝ)) /
            ((([1] : List Nat).getD i 0 : ℝ))))) ∧
    (∀ i, i < 1 → ([1] : List Nat).getD i 0 = 0 →
      ∀ x : ℝ,
        (computeBounds { narms := 1, c := 1, counts := [1], means := [0] }).getD i .nan ≠
          .fin x) :=
  computeBounds_formula { narms := 1, c := 1, counts := [1], means := [0] }
    (by norm_num [U64]) (by decide)

end BanditUCB
